import Mathlib

/-
Verification development for the DIRAC-3 allocator's energy-model formulation
(solverdirac3_optimize.py).  The numeric type of the source (Python float) is
embedded as the rationals; the only non-rational operation the source performs,
the built-in power `x ** e` with the fixed literal exponents 1.0, 1.1, 1.2 and
0.8, is threaded through the embedding as an explicit function argument `fpow`,
so that every statement quantifying over inputs also quantifies over the power
function, and concrete evaluations instantiate `fpow` at call sites where the
base is 1 (where the float power is exactly 1 as well).
-/

namespace Dirac3

set_option maxRecDepth 10000

/-- The magnitude threshold of PolyBuilder.add (source line 103): `1e-12`. -/
def eps : ℚ := 1e-12

/-- Insertion step for sorting a monomial's indices ascending. -/
def insertSorted (a : ℕ) : List ℕ → List ℕ
  | [] => [a]
  | b :: t => if a ≤ b then a :: b :: t else b :: insertSorted a t

/-- `tuple(sorted(monomial))` of PolyBuilder.add (source line 110). -/
def sortList : List ℕ → List ℕ
  | [] => []
  | a :: t => insertSorted a (sortList t)

/-- `itertools.combinations(l, 2)` in iteration order (source line 391). -/
def pairsOf : List ℕ → List (ℕ × ℕ)
  | [] => []
  | a :: t => (t.map (fun b => (a, b))) ++ pairsOf t

/-- Python-dict style accumulation `terms[mono] = terms.get(mono, 0.0) + coef`
(source line 111): if the key is present its value is updated in place,
otherwise the pair is appended. -/
def addTerm : List (List ℕ × ℚ) → List ℕ → ℚ → List (List ℕ × ℚ)
  | [], key, c => [(key, c)]
  | (k, v) :: rest, key, c =>
      if k = key then (k, v + c) :: rest else (k, v) :: addTerm rest key c

/-- The single exception PolyBuilder.add can raise (the ValueError of source
line 109, for a monomial whose degree exceeds the configured maximum). -/
inductive AddError
  | degreeExceeded
  deriving DecidableEq

/-- The term accumulator of the source's PolyBuilder class (lines 92-111):
a configured maximum degree plus the stored monomial-to-coefficient mapping. -/
structure PolyBuilder where
  max_degree : ℕ
  terms : List (List ℕ × ℚ)
  deriving DecidableEq

/-- PolyBuilder.add (source lines 102-111): drops contributions below the
1e-12 magnitude threshold, silently omits empty monomials (constant terms are
unsupported by the target format), raises on degree overflow, otherwise sorts
the monomial and accumulates. -/
def PolyBuilder.add (pb : PolyBuilder) (monomial : List ℕ) (coef : ℚ) :
    Except AddError PolyBuilder :=
  if |coef| < eps then .ok pb
  else if monomial.length = 0 then .ok pb
  else if pb.max_degree < monomial.length then .error .degreeExceeded
  else .ok { pb with terms := addTerm pb.terms (sortList monomial) coef }

/-- The builder's add as used inside build_energy_polynomial, where every call
site keeps the monomial degree within the configured maximum, so the error
branch is unreachable; on the (unreachable) error the builder is returned
unchanged. -/
def addOk (pb : PolyBuilder) (monomial : List ℕ) (coef : ℚ) : PolyBuilder :=
  match pb.add monomial coef with
  | .ok r => r
  | .error _ => pb

/-- Product of a binary assignment over a monomial's variable indices. -/
def monoProd (x : ℕ → ℚ) (m : List ℕ) : ℚ := (m.map x).prod

/-- Value of a stored term mapping at an assignment: the sum over stored terms
of coefficient times the product of the assigned variable values. -/
def evalTerms (ts : List (List ℕ × ℚ)) (x : ℕ → ℚ) : ℚ :=
  (ts.map (fun t => t.2 * monoProd x t.1)).sum

/-- A coefficient as it survives the add threshold: zero when its magnitude is
below 1e-12 (the contribution is dropped), itself otherwise. -/
def keep (c : ℚ) : ℚ := if |c| < eps then 0 else c

/-- Python `max(gen, default=d)`: the default is only used when the list is
empty (source lines 383 and 592). -/
def listMaxD (d : ℚ) : List ℚ → ℚ
  | [] => d
  | x :: xs => xs.foldl max x

/-- Sum of the absolute values of all stored coefficients. -/
def coefAbsSum (ts : List (List ℕ × ℚ)) : ℚ := (ts.map (fun t => |t.2|)).sum

/-- The coefficient division loop of run_optimization (source lines 598-599):
every stored coefficient is divided by the common factor `s`. -/
def scaleTerms (ts : List (List ℕ × ℚ)) (s : ℚ) : List (List ℕ × ℚ) :=
  ts.map (fun t => (t.1, t.2 / s))

/-- MODEL_CFG["TARGET_MAX_COEF_ABS"] (source line 56). -/
def TARGET_MAX_COEF_ABS : ℚ := 25.0

/-- The optional coefficient rescale of run_optimization (source lines
592-599): when the largest stored magnitude exceeds the target, every
coefficient is divided by `max_abs / target`; the applied factor is returned
alongside (1 when no rescale happened). -/
def rescaleStep (pb : PolyBuilder) : PolyBuilder × ℚ :=
  let max_abs := listMaxD 1 (pb.terms.map (fun t => |t.2|))
  if TARGET_MAX_COEF_ABS < max_abs then
    let scale := max_abs / TARGET_MAX_COEF_ABS
    ({ pb with terms := scaleTerms pb.terms scale }, scale)
  else (pb, 1)

/-- An assignment is binary when every variable carries 0 or 1. -/
def Binary (x : ℕ → ℚ) : Prop := ∀ i, x i = 0 ∨ x i = 1

/-
Catalog data model, in the canonical typed shape of the JSON inputs (spec
section 6).  Numeric leaf fields that the source reads through `_get_in`
with a fixed 0.0 default are plain rationals (an absent JSON field is
represented by its 0.0 default); fields the source reads through `.get`
with a non-zero or call-site-dependent default stay `Option`.
-/

/-- A position's reward block `{fee_apr, incentive_apr, base_apr}`. -/
structure Reward where
  fee_apr : ℚ
  incentive_apr : ℚ
  base_apr : ℚ
  deriving DecidableEq

/-- A position's risk block `{il_risk_score, liquidity_unwind_cost_usd}`. -/
structure Risk where
  il_risk_score : ℚ
  liquidity_unwind_cost_usd : ℚ
  deriving DecidableEq

/-- A position's execution block. -/
structure ExecutionBlock where
  gas_cost_usd_per_rebalance : ℚ
  slippage_bps_per_rebalance : ℚ
  mev_risk_score : ℚ
  failure_prob_per_rebalance : ℚ
  deriving DecidableEq

/-- One entry of the position catalog. -/
structure Pool where
  pool_id : String
  label : String
  reward : Reward
  risk : Risk
  execution : ExecutionBlock
  deriving DecidableEq

/-- One entry of the hedge-type catalog; cost/multiplier are read with
`.get(..., 0.0)` and `.get(..., 1.0)` defaults (source lines 221-222). -/
structure HedgeType where
  key : String
  default_cost_apr : Option ℚ
  default_il_multiplier : Option ℚ
  deriving DecidableEq

/-- A per-position per-tenor override entry (source lines 236-237). -/
structure OverrideEntry where
  cost_apr : Option ℚ
  il_multiplier : Option ℚ
  deriving DecidableEq

/-- One pool_overrides record: a pool id and its tenor-to-hedge override
table (source lines 229-237). -/
structure PoolOverride where
  pool_id : String
  tenor_overrides : List (String × List (String × OverrideEntry))
  deriving DecidableEq

/-- One size_scaling record (source lines 240-243). -/
structure SizeScalingEntry where
  key : String
  cost_multiplier : Option ℚ
  benefit_multiplier : Option ℚ
  deriving DecidableEq

/-- One tenor bucket (only its key is read). -/
structure TenorBucket where
  key : String
  deriving DecidableEq

/-- hedges.json: hedge_types, tenor_buckets, pool_overrides, size_scaling,
each read with a `.get(..., [])`-style default, so an absent key is the
empty list. -/
structure HedgesJson where
  hedge_types : List HedgeType
  tenor_buckets : List TenorBucket
  pool_overrides : List PoolOverride
  size_scaling : List SizeScalingEntry
  deriving DecidableEq

/-- One size tier `{key, notional_usd, multiplier}`. -/
structure SizeBucket where
  key : String
  notional_usd : ℚ
  multiplier : ℚ
  deriving DecidableEq

/-- One rebalance tier `{key, rebalance_per_week, multiplier}`. -/
structure RebBucket where
  key : String
  rebalance_per_week : ℚ
  multiplier : ℚ
  deriving DecidableEq

/-- The optional nested `buckets` object of pools.json; each bucket list key
may itself be absent (source lines 151-153 and 198-200). -/
structure Buckets where
  size_buckets : Option (List SizeBucket)
  rebalance_buckets : Option (List RebBucket)
  deriving DecidableEq

/-- pools.json in its dict root form: the position list plus the optional
bucket tables (top-level fallbacks included).  The list root form of
`_coerce_root_list` corresponds to every optional field absent. -/
structure PoolsJson where
  pools : List Pool
  buckets : Option Buckets
  size_buckets : Option (List SizeBucket)
  rebalance_buckets : Option (List RebBucket)
  deriving DecidableEq

/-- A scenario's multiplier table; every field is read with a `.get(..., 1.0)`
default, so an absent multiplier is represented by 1. -/
structure Multipliers where
  reward_multiplier : ℚ
  il_risk_multiplier : ℚ
  gas_multiplier : ℚ
  slippage_multiplier : ℚ
  mev_multiplier : ℚ
  failure_multiplier : ℚ
  deriving DecidableEq

/-- One scenario entry of scenarios.json. -/
structure Scenario where
  scenario_id : String
  multipliers : Multipliers
  deriving DecidableEq

/-- A decoded choice: one key per axis group, the tenor axis optional
(decode_argmax output as consumed by compute_breakdown, lines 467-485). -/
structure Choice where
  pool : String
  hedge : String
  size : String
  rebalance : String
  tenor : Option String
  deriving DecidableEq

/-- Python dict built by `{b[key]: b for b in l}` with lookup: on duplicate
keys the later entry wins, so the lookup scans left to right keeping the last
match. -/
def pyDictFind {α : Type} (l : List α) (key : α → String) (k : String) :
    Option α :=
  l.foldl (fun acc b => if key b = k then some b else acc) none

/-- `buckets.get("size_buckets", pools.get("size_buckets", []))` (source
lines 152 and 199). -/
def getSizeBuckets (pj : PoolsJson) : List SizeBucket :=
  ((pj.buckets.bind (fun b => b.size_buckets)).getD (pj.size_buckets.getD []))

/-- `buckets.get("rebalance_buckets", pools.get("rebalance_buckets", []))`
(source lines 153 and 200). -/
def getRebBuckets (pj : PoolsJson) : List RebBucket :=
  ((pj.buckets.bind (fun b => b.rebalance_buckets)).getD
    (pj.rebalance_buckets.getD []))

/-- get_bucket_maps (source lines 197-211): the size and rebalance tier
tables, replaced by the hard-coded defaults when the catalog supplies none. -/
def get_bucket_maps (pj : PoolsJson) : List SizeBucket × List RebBucket :=
  let sbs := getSizeBuckets pj
  let rbs := getRebBuckets pj
  (if sbs.isEmpty then
      [⟨"S", 1000, 0.5⟩, ⟨"M", 5000, 1.0⟩, ⟨"L", 20000, 2.0⟩]
    else sbs,
   if rbs.isEmpty then
      [⟨"daily", 7, 1.8⟩, ⟨"weekly", 1, 1.0⟩]
    else rbs)

/-- pick_scenario (source lines 189-194): first entry with the requested id;
the not-found ValueError is the `none` case. -/
def pick_scenario (scs : List Scenario) (sid : String) : Option Scenario :=
  scs.find? (fun s => s.scenario_id = sid)

/-- ConfigurationError cases of the variable layout (source line 156). -/
inductive ConfigError
  | tooFewPools
  deriving DecidableEq

/-- One axis group (source lines 140-144). -/
structure Group where
  name : String
  keys : List String
  var_indices : List ℕ
  deriving DecidableEq

/-- The sequential `_make_group` construction (source lines 166-180): each
axis takes the next contiguous block of 1-based indices. -/
def mkGroups : ℕ → List (String × List String) → List Group
  | _, [] => []
  | i, (n, ks) :: rest =>
      ⟨n, ks, List.range' i ks.length⟩ :: mkGroups (i + ks.length) rest

/-- The axis key lists of build_variables in declaration order
(source lines 159-180), tenor appended only when tenor keys exist. -/
def specsOf (pj : PoolsJson) (hj : HedgesJson) :
    List (String × List String) :=
  let pool_keys := pj.pools.map (fun p => p.pool_id)
  let hedge_keys :=
    if hj.hedge_types.isEmpty then ["none", "protective_put", "collar"]
    else hj.hedge_types.map (fun h => h.key)
  let sbs := getSizeBuckets pj
  let size_keys :=
    if sbs.isEmpty then ["S", "M", "L"] else sbs.map (fun s => s.key)
  let rbs := getRebBuckets pj
  let reb_keys :=
    if rbs.isEmpty then ["daily", "weekly"] else rbs.map (fun r => r.key)
  let tenor_keys := hj.tenor_buckets.map (fun t => t.key)
  [("pool", pool_keys), ("hedge", hedge_keys), ("size", size_keys),
   ("rebalance", reb_keys)] ++
    (if tenor_keys.isEmpty then [] else [("tenor", tenor_keys)])

/-- build_variables (source lines 147-183): fails when the position catalog
has fewer than 3 entries, otherwise lays the axis groups out over contiguous
1-based index blocks.  The name-to-group dict the source returns alongside is
recovered by lookup over the returned list. -/
def build_variables (pj : PoolsJson) (hj : HedgesJson) :
    Except ConfigError (List Group) :=
  if pj.pools.length < 3 then .error .tooFewPools
  else .ok (mkGroups 1 (specsOf pj hj))

/-- `gmap[name]` lookups over the group list (group names are unique). -/
def gfind (gs : List Group) (n : String) : Group :=
  (gs.find? (fun g => g.name = n)).getD ⟨"", [], []⟩

/-- idx_of (source lines 280-282): the variable index of a key inside a named
group (first occurrence of the key, as list.index does). -/
def idxOf (gs : List Group) (n k : String) : ℕ :=
  let g := gfind gs n
  g.var_indices.getD (g.keys.indexOf k) 0

/-- `num_variables = sum(len(g.keys) for g in groups)` (source line 601). -/
def numVariables (gs : List Group) : ℕ :=
  (gs.map (fun g => g.keys.length)).sum

/-
MODEL_CFG constants (source lines 38-57).
-/

/-- MODEL_CFG["IL_SCORE_TO_APR"]. -/
def IL_SCORE_TO_APR : ℚ := 1.0

/-- MODEL_CFG["MEV_SCORE_TO_APR"]. -/
def MEV_SCORE_TO_APR : ℚ := 0.02

/-- MODEL_CFG["FAIL_PROB_TO_APR"]. -/
def FAIL_PROB_TO_APR : ℚ := 0.03

/-- MODEL_CFG["HEDGE_EXTRA_GAS_MULTIPLIER"]. -/
def HEDGE_EXTRA_GAS_MULTIPLIER : ℚ := 0.6

/-- MODEL_CFG["LAMBDA_MULT"]. -/
def LAMBDA_MULT : ℚ := 20.0

/-- hedge_params (source lines 214-245): defaults from the hedge-type table
(or the hard-coded fallbacks when the key is unknown), then pool- and
tenor-specific overrides, then size scaling.  Returns
(hedge_cost_apr, il_multiplier). -/
def hedge_params (hj : HedgesJson) (pool_id hedge_key : String)
    (tenor_key : Option String) (size_key : String) : ℚ × ℚ :=
  let base :=
    match pyDictFind hj.hedge_types (fun h => h.key) hedge_key with
    | some h => (h.default_cost_apr.getD 0, h.default_il_multiplier.getD 1)
    | none =>
        ((if hedge_key = "none" then 0
          else if hedge_key = "protective_put" then 0.06 else 0.03),
         (if hedge_key = "none" then 1
          else if hedge_key = "protective_put" then 0.65 else 0.8))
  let afterOv :=
    match tenor_key with
    | some t =>
        if t = "" then base   -- Python truthiness: an empty tenor key skips
        else
          hj.pool_overrides.foldl (fun acc ov =>
            if ov.pool_id = pool_id then
              match (pyDictFind ov.tenor_overrides (fun e => e.1) t).bind
                  (fun tm => pyDictFind tm.2 (fun e => e.1) hedge_key) with
              | some e => ((e.2.cost_apr.getD acc.1),
                           (e.2.il_multiplier.getD acc.2))
              | none => acc
            else acc) base
    | none => base
  match pyDictFind hj.size_scaling (fun s => s.key) size_key with
  | some sc => (afterOv.1 * sc.cost_multiplier.getD 1,
                afterOv.2 * sc.benefit_multiplier.getD 1)
  | none => afterOv

/-- The scenario-scaled gross yield of a position
(source lines 288-291 and 548-551). -/
def scaledGross (mult : Multipliers) (p : Pool) : ℚ :=
  (p.reward.fee_apr + p.reward.incentive_apr + p.reward.base_apr) *
    mult.reward_multiplier

/-- A placeholder for the always-successful pool lookup inside the builder's
main loop (the looped keys come from the pool group, which was built from the
same pool list, so `next(...)` cannot fail there). -/
def dummyPool : Pool := ⟨"", "", ⟨0, 0, 0⟩, ⟨0, 0⟩, ⟨0, 0, 0, 0⟩⟩

/-- The objective phase of build_energy_polynomial (source lines 269-374):
the linear reward terms and every higher-order penalty/cost term, populated
into a fresh builder in source loop order, before the one-hot constraint
terms are appended.  `fpow` stands for the float power `x ** e`. -/
def buildObjective (fpow : ℚ → ℚ → ℚ) (pj : PoolsJson) (hj : HedgesJson)
    (scs : List Scenario) (sid : String) (gs : List Group) :
    Option PolyBuilder := do
  let scen ← pick_scenario scs sid
  let mult := scen.multipliers
  let maps := get_bucket_maps pj
  let size_map := maps.1
  let reb_map := maps.2
  let has_tenor := (gs.find? (fun g => g.name = "tenor")).isSome
  let max_degree := if has_tenor then 5 else 4
  let pb0 : PolyBuilder := ⟨max_degree, []⟩
  let pb1 := pj.pools.foldl (fun pb p =>
    addOk pb [idxOf gs "pool" p.pool_id] (-(scaledGross mult p))) pb0
  let pool_keys := (gfind gs "pool").keys
  let hedge_keys := (gfind gs "hedge").keys
  let size_keys := (gfind gs "size").keys
  let reb_keys := (gfind gs "rebalance").keys
  let tenor_loop : List (Option String) :=
    if has_tenor then ((gfind gs "tenor").keys).map some else [none]
  let pbF := pool_keys.foldl (fun pb pool_id =>
    let pool := (pj.pools.find? (fun p => p.pool_id = pool_id)).getD dummyPool
    let il_score := pool.risk.il_risk_score
    let il_apr_base := il_score * IL_SCORE_TO_APR * mult.il_risk_multiplier
    let gas_usd := pool.execution.gas_cost_usd_per_rebalance *
      mult.gas_multiplier
    let slippage_bps := pool.execution.slippage_bps_per_rebalance *
      mult.slippage_multiplier
    let mev_score := pool.execution.mev_risk_score * mult.mev_multiplier
    let fail_prob := pool.execution.failure_prob_per_rebalance *
      mult.failure_multiplier
    let liquidity_unwind_usd := pool.risk.liquidity_unwind_cost_usd
    size_keys.foldl (fun pb size_key =>
      let size_notional :=
        ((pyDictFind size_map (fun b => b.key) size_key).map
          (fun b => b.notional_usd)).getD 5000
      let size_mult :=
        ((pyDictFind size_map (fun b => b.key) size_key).map
          (fun b => b.multiplier)).getD 1
      let gas_apr_per_reb := gas_usd / max size_notional 1
      let unwind_apr := liquidity_unwind_usd / max size_notional 1
      let slippage_apr_per_reb := (slippage_bps / 10000) * fpow size_mult 1.2
      let mev_apr_per_reb := mev_score * MEV_SCORE_TO_APR * fpow size_mult 1.1
      let fail_apr_per_reb := fail_prob * FAIL_PROB_TO_APR * fpow size_mult 1.0
      reb_keys.foldl (fun pb reb_key =>
        let reb_per_week :=
          ((pyDictFind reb_map (fun b => b.key) reb_key).map
            (fun b => b.rebalance_per_week)).getD 1
        let reb_mult :=
          ((pyDictFind reb_map (fun b => b.key) reb_key).map
            (fun b => b.multiplier)).getD 1
        let per_reb_cost_apr :=
          (gas_apr_per_reb + slippage_apr_per_reb + mev_apr_per_reb +
            fail_apr_per_reb) * reb_per_week * 52 * reb_mult
        let exec_drag_apr := per_reb_cost_apr + 0.1 * unwind_apr
        let pb := addOk pb
          [idxOf gs "pool" pool_id, idxOf gs "size" size_key,
           idxOf gs "rebalance" reb_key] exec_drag_apr
        hedge_keys.foldl (fun pb hedge_key =>
          tenor_loop.foldl (fun pb tenor_key =>
            let hp := hedge_params hj pool_id hedge_key tenor_key size_key
            let il_penalty_apr := il_apr_base * fpow size_mult 1.0 *
              fpow reb_mult 0.8 * hp.2
            let pb := addOk pb
              [idxOf gs "pool" pool_id, idxOf gs "size" size_key,
               idxOf gs "rebalance" reb_key, idxOf gs "hedge" hedge_key]
              il_penalty_apr
            let mono :=
              [idxOf gs "pool" pool_id, idxOf gs "size" size_key,
               idxOf gs "hedge" hedge_key] ++
                (match has_tenor, tenor_key with
                 | true, some tk => [idxOf gs "tenor" tk]
                 | _, _ => [])
            let pb := addOk pb mono hp.1
            if hedge_key ≠ "none" then
              let hedge_overhead := HEDGE_EXTRA_GAS_MULTIPLIER *
                gas_apr_per_reb * reb_per_week * 52
              let mono2 :=
                [idxOf gs "pool" pool_id, idxOf gs "size" size_key,
                 idxOf gs "rebalance" reb_key, idxOf gs "hedge" hedge_key] ++
                  (match has_tenor, tenor_key with
                   | true, some tk => [idxOf gs "tenor" tk]
                   | _, _ => [])
              addOk pb mono2 hedge_overhead
            else pb) pb) pb) pb) pb) pb1
  some pbF

/-- The penalty strength derivation (source lines 383-384):
LAMBDA_MULT times the largest stored coefficient magnitude (default 1). -/
def lambdaOf (pb : PolyBuilder) : ℚ :=
  LAMBDA_MULT * listMaxD 1 (pb.terms.map (fun t => |t.2|))

/-- The one-hot constraint terms of a single axis group (source lines
387-392): a linear `-lam` term per variable and a `2*lam` term per unordered
pair. -/
def addOneHotGroup (lam : ℚ) (pb : PolyBuilder) (g : Group) : PolyBuilder :=
  let pb := g.var_indices.foldl (fun pb vi => addOk pb [vi] (-lam)) pb
  (pairsOf g.var_indices).foldl
    (fun pb p => addOk pb [p.1, p.2] (2 * lam)) pb

/-- The one-hot constraint loop over every axis group (source lines 386-392). -/
def addOneHot (pb : PolyBuilder) (gs : List Group) (lam : ℚ) : PolyBuilder :=
  gs.foldl (fun pb g => addOneHotGroup lam pb g) pb

/-- build_energy_polynomial (source lines 251-399): the objective phase, then
the one-hot constraints with the derived penalty strength; returns the builder
together with the meta lambda. -/
def build_energy_polynomial (fpow : ℚ → ℚ → ℚ) (pj : PoolsJson)
    (hj : HedgesJson) (scs : List Scenario) (sid : String) (gs : List Group) :
    Option (PolyBuilder × ℚ) := do
  let pb ← buildObjective fpow pj hj scs sid gs
  let lam := lambdaOf pb
  some (addOneHot pb gs lam, lam)

/-- The audited score breakdown of compute_breakdown (source lines 517-534). -/
structure Breakdown where
  fee_apr : ℚ
  incentive_apr : ℚ
  base_apr : ℚ
  total_gross_apr : ℚ
  il_penalty_apr : ℚ
  hedge_cost_apr : ℚ
  execution_drag_apr : ℚ
  hedge_overhead_apr : ℚ
  total_penalties_apr : ℚ
  net_apr : ℚ
  deriving DecidableEq

/-- compute_breakdown (source lines 461-534): the per-choice recomputation of
gross reward and every penalty, by the same formulas as the builder but
evaluated once.  `none` models the exceptions of the scenario and pool
lookups. -/
def compute_breakdown (fpow : ℚ → ℚ → ℚ) (pj : PoolsJson) (hj : HedgesJson)
    (scs : List Scenario) (sid : String) (chosen : Choice) :
    Option Breakdown := do
  let scen ← pick_scenario scs sid
  let mult := scen.multipliers
  let maps := get_bucket_maps pj
  let size_map := maps.1
  let reb_map := maps.2
  let pool ← pj.pools.find? (fun p => p.pool_id = chosen.pool)
  let fee_apr := pool.reward.fee_apr
  let inc_apr := pool.reward.incentive_apr
  let base_apr := pool.reward.base_apr
  let gross_apr := (fee_apr + inc_apr + base_apr) * mult.reward_multiplier
  let size_key := chosen.size
  let reb_key := chosen.rebalance
  let size_notional :=
    ((pyDictFind size_map (fun b => b.key) size_key).map
      (fun b => b.notional_usd)).getD 5000
  let size_mult :=
    ((pyDictFind size_map (fun b => b.key) size_key).map
      (fun b => b.multiplier)).getD 1
  let reb_per_week :=
    ((pyDictFind reb_map (fun b => b.key) reb_key).map
      (fun b => b.rebalance_per_week)).getD 1
  let reb_mult :=
    ((pyDictFind reb_map (fun b => b.key) reb_key).map
      (fun b => b.multiplier)).getD 1
  let hedge_key := chosen.hedge
  let tenor_key := chosen.tenor
  let hp := hedge_params hj pool.pool_id hedge_key tenor_key size_key
  let il_score := pool.risk.il_risk_score
  let il_apr_base := il_score * IL_SCORE_TO_APR * mult.il_risk_multiplier
  let il_penalty_apr := il_apr_base * fpow size_mult 1.0 *
    fpow reb_mult 0.8 * hp.2
  let gas_usd := pool.execution.gas_cost_usd_per_rebalance *
    mult.gas_multiplier
  let slippage_bps := pool.execution.slippage_bps_per_rebalance *
    mult.slippage_multiplier
  let mev_score := pool.execution.mev_risk_score * mult.mev_multiplier
  let fail_prob := pool.execution.failure_prob_per_rebalance *
    mult.failure_multiplier
  let liquidity_unwind_usd := pool.risk.liquidity_unwind_cost_usd
  let gas_apr_per_reb := gas_usd / max size_notional 1
  let unwind_apr := liquidity_unwind_usd / max size_notional 1
  let slippage_apr_per_reb := (slippage_bps / 10000) * fpow size_mult 1.2
  let mev_apr_per_reb := mev_score * MEV_SCORE_TO_APR * fpow size_mult 1.1
  let fail_apr_per_reb := fail_prob * FAIL_PROB_TO_APR * fpow size_mult 1.0
  let exec_drag_apr :=
    (gas_apr_per_reb + slippage_apr_per_reb + mev_apr_per_reb +
      fail_apr_per_reb) * reb_per_week * 52 * reb_mult + 0.1 * unwind_apr
  let hedge_overhead_apr :=
    if hedge_key ≠ "none" then
      HEDGE_EXTRA_GAS_MULTIPLIER * gas_apr_per_reb * reb_per_week * 52
    else 0
  let total_penalties := il_penalty_apr + hp.1 + exec_drag_apr +
    hedge_overhead_apr
  some ⟨fee_apr, inc_apr, base_apr, gross_apr, il_penalty_apr, hp.1,
    exec_drag_apr, hedge_overhead_apr, total_penalties,
    gross_apr - total_penalties⟩

/-- The output shape of compute_baseline (source lines 556-559): the chosen
dict with the pool replaced by the best-gross pool (which stays the Python
None when no pool's gross beat the -1e9 sentinel) and the hedge forced to
"none". -/
structure BaselineChoice where
  pool : Option String
  hedge : String
  size : String
  rebalance : String
  tenor : Option String
  deriving DecidableEq

/-- compute_baseline (source lines 537-559): scans the pool list keeping the
first strict improvement over the -1e9 sentinel, forces hedge "none", keeps
the decoded size/rebalance/tenor. -/
def compute_baseline (pj : PoolsJson) (scs : List Scenario) (sid : String)
    (chosen : Choice) : Option BaselineChoice := do
  let scen ← pick_scenario scs sid
  let mult := scen.multipliers
  let st := pj.pools.foldl (fun b p =>
    if scaledGross mult p > b.2 then (some p.pool_id, scaledGross mult p)
    else b) ((none : Option String), (-1e9 : ℚ))
  some ⟨st.1, "none", chosen.size, chosen.rebalance, chosen.tenor⟩

/-- The one-hot binary assignment corresponding to a decoded Choice: the
selected variable of each axis group carries 1, every other variable 0. -/
def choiceIndicator (gs : List Group) (c : Choice) : ℕ → ℚ := fun i =>
  if (i == idxOf gs "pool" c.pool || i == idxOf gs "hedge" c.hedge ||
      i == idxOf gs "size" c.size || i == idxOf gs "rebalance" c.rebalance ||
      (match c.tenor with
       | some t => i == idxOf gs "tenor" t
       | none => false)) then 1 else 0

/-
Concrete catalogs used by counterexamples and witnesses.  Their size and
rebalance multipliers are all 1, so every power the source takes is applied
to the base 1, where the float power is exactly 1; `fpow0` agrees with the
float power on every call site these inputs reach.
-/

/-- A power function agreeing with the float `x ** e` at base 1 (and at
exponent 1), the only call sites the concrete catalogs below reach. -/
def fpow0 : ℚ → ℚ → ℚ := fun x _ => x

/-- The all-ones scenario multiplier table. -/
def mult1 : Multipliers := ⟨1, 1, 1, 1, 1, 1⟩

/-- A single-scenario list with id "S" and all multipliers 1. -/
def scens1 : List Scenario := [⟨"S", mult1⟩]

/-- A position with the given id and fee APR and every other numeric field 0. -/
def feePool (pid : String) (fee : ℚ) : Pool :=
  ⟨pid, pid, ⟨fee, 0, 0⟩, ⟨0, 0⟩, ⟨0, 0, 0, 0⟩⟩

/-- Catalog A (pools): three positions with all-zero numeric data. -/
def poolsA : PoolsJson :=
  ⟨[feePool "P1" 0, feePool "P2" 0, feePool "P3" 0],
   some ⟨some [⟨"M", 1, 1⟩], some [⟨"d", 1, 1⟩, ⟨"w", 1, 1⟩]⟩, none, none⟩

/-- Catalog A (hedges): a free "none" hedge and a "put" hedge costing 0.06,
no overrides, no tenor axis. -/
def hedgesA : HedgesJson :=
  ⟨[⟨"none", some 0, some 1⟩, ⟨"put", some 0.06, some 1⟩], [], [], []⟩

/-- The axis groups of catalog A. -/
def groupsA : List Group :=
  [⟨"pool", ["P1", "P2", "P3"], [1, 2, 3]⟩,
   ⟨"hedge", ["none", "put"], [4, 5]⟩,
   ⟨"size", ["M"], [6]⟩,
   ⟨"rebalance", ["d", "w"], [7, 8]⟩]

/-- The decoded choice examined on catalog A. -/
def choiceA : Choice := ⟨"P1", "put", "M", "d", none⟩

/-- Catalog B (pools): one position with fee APR 0.05, two inert positions,
one size tier and one rebalance tier. -/
def poolsB : PoolsJson :=
  ⟨[feePool "P1" 0.05, feePool "P2" 0, feePool "P3" 0],
   some ⟨some [⟨"M", 1, 1⟩], some [⟨"w", 1, 1⟩]⟩, none, none⟩

/-- Catalog B (hedges): the single free "none" hedge. -/
def hedgesB : HedgesJson := ⟨[⟨"none", some 0, some 1⟩], [], [], []⟩

/-- The axis groups of catalog B. -/
def groupsB : List Group :=
  [⟨"pool", ["P1", "P2", "P3"], [1, 2, 3]⟩,
   ⟨"hedge", ["none"], [4]⟩,
   ⟨"size", ["M"], [5]⟩,
   ⟨"rebalance", ["w"], [6]⟩]

/-- A position of catalog C: IL score 31.2, gas -1 and slippage 10000 bps,
chosen so the stored IL-plus-overhead coefficient and the execution-drag
coefficient both cancel to exactly 0. -/
def poolC (pid : String) : Pool :=
  ⟨pid, pid, ⟨0, 0, 0⟩, ⟨31.2, 0⟩, ⟨-1, 10000, 0, 0⟩⟩

/-- Catalog C (pools): three such cancelling positions. -/
def poolsC : PoolsJson :=
  ⟨[poolC "P1", poolC "P2", poolC "P3"],
   some ⟨some [⟨"M", 1, 1⟩], some [⟨"w", 1, 1⟩]⟩, none, none⟩

/-- Catalog C (hedges): one hedge whose key is not "none", free of cost. -/
def hedgesC : HedgesJson := ⟨[⟨"h", some 0, some 1⟩], [], [], []⟩

/-- The axis groups of catalog C. -/
def groupsC : List Group :=
  [⟨"pool", ["P1", "P2", "P3"], [1, 2, 3]⟩,
   ⟨"hedge", ["h"], [4]⟩,
   ⟨"size", ["M"], [5]⟩,
   ⟨"rebalance", ["w"], [6]⟩]

/-- Catalog D (pools): every position's scenario-scaled gross yield sits below
the -1e9 sentinel of compute_baseline. -/
def poolsD : PoolsJson :=
  ⟨[feePool "P1" (-2e9), feePool "P2" (-3e9), feePool "P3" (-2e9)],
   none, none, none⟩

/-- A two-entry position catalog (below the required minimum of 3). -/
def poolsSmall : PoolsJson :=
  ⟨[feePool "P1" 0, feePool "P2" 0], none, none, none⟩

/-- Sum over the unordered index pairs of a group of the product of the two
assigned values: the value the quadratic one-hot terms of one group take. -/
def pairsSum (x : ℕ → ℚ) (l : List ℕ) : ℚ :=
  ((pairsOf l).map (fun p => x p.1 * x p.2)).sum

/-- The number of selected variables of a group under a binary assignment
(as a rational: the sum of the assigned values). -/
def groupOnes (x : ℕ → ℚ) (g : Group) : ℚ := (g.var_indices.map x).sum

/-- An assignment selects exactly one variable in every axis group. -/
abbrev ValidFor (gs : List Group) (x : ℕ → ℚ) : Prop :=
  ∀ g ∈ gs, groupOnes x g = 1

/-- An assignment violates exactly-one-selected in some axis group. -/
abbrev ViolatesFor (gs : List Group) (x : ℕ → ℚ) : Prop :=
  ∃ g ∈ gs, groupOnes x g ≠ 1

/-- The one-hot constraint terms of a single axis group in isolation: the
same adds the constraint loop performs for that group, into a fresh builder. -/
def oneHotGroupAlone (lam : ℚ) (g : Group) : PolyBuilder :=
  addOneHotGroup lam ⟨4, []⟩ g

/-- The assignment putting 1 on variable 1 and 0 elsewhere. -/
def e1 : ℕ → ℚ := fun i => if i = 1 then 1 else 0

/-- The all-zero assignment. -/
def xZero : ℕ → ℚ := fun _ => 0

/-- The valid choice examined on catalog B. -/
def choiceB : Choice := ⟨"P1", "none", "M", "w", none⟩

/-- The valid choice examined on catalog C. -/
def choiceC : Choice := ⟨"P1", "h", "M", "w", none⟩

/-- The objective-phase builder of catalog B (checked against the build). -/
def pbObjB : PolyBuilder := ⟨4, [([1], -1/20)]⟩

/-- The full energy builder of catalog B, one-hot terms included (checked
against the build; the reward and the linear one-hot term of variable 1
accumulate on the same monomial). -/
def pbFullB : PolyBuilder :=
  ⟨4, [([1], -21/20), ([2], -1), ([3], -1), ([1, 2], 2), ([1, 3], 2),
       ([2, 3], 2), ([4], -1), ([5], -1), ([6], -1)]⟩

/-- The objective-phase builder of catalog A (checked against the build):
the hedge-cost coefficient of the put hedge is stored doubled, once per
rebalance tier. -/
def pbObjA : PolyBuilder :=
  ⟨4, [([1, 5, 6], 3/25), ([2, 5, 6], 3/25), ([3, 5, 6], 3/25)]⟩

/-- The full energy builder of catalog C (checked against the build): the
derived lambda is 0, so no one-hot term survives the add threshold and every
stored coefficient is exactly 0. -/
def pbFullC : PolyBuilder :=
  ⟨4, [([1, 4, 5, 6], 0), ([2, 4, 5, 6], 0), ([3, 4, 5, 6], 0)]⟩

/-- The breakdown compute_breakdown returns for choiceA on catalog A (checked
against the computation): the put hedge cost 0.06 is the only nonzero
penalty. -/
def bdA : Breakdown := ⟨0, 0, 0, 0, 0, 3/50, 0, 0, 3/50, -(3/50)⟩

/-- The baseline choice compute_baseline returns on catalog D (checked
against the computation): no pool beat the sentinel, so the pool is the
Python None. -/
def bcD : BaselineChoice := ⟨none, "none", "M", "d", none⟩

instance {ε α : Type} [DecidableEq ε] [DecidableEq α] :
    DecidableEq (Except ε α) := fun a b =>
  match a, b with
  | .ok u, .ok v =>
      if h : u = v then .isTrue (by rw [h])
      else .isFalse (fun c => h (Except.ok.inj c))
  | .error u, .error v =>
      if h : u = v then .isTrue (by rw [h])
      else .isFalse (fun c => h (Except.error.inj c))
  | .ok _, .error _ => .isFalse (fun c => Except.noConfusion c)
  | .error _, .ok _ => .isFalse (fun c => Except.noConfusion c)

/-
Lemma layer: evaluation of the accumulator commutes with the add operations.
-/

lemma eps_pos : 0 < eps := by norm_num [eps]

lemma insertSorted_perm (a : ℕ) (l : List ℕ) :
    List.Perm (insertSorted a l) (a :: l) := by
  induction l with
  | nil => simp [insertSorted]
  | cons b t ih =>
      by_cases h : a ≤ b
      · simp [insertSorted, h]
      · simp only [insertSorted, if_neg h]
        exact ((ih.cons b).trans (List.Perm.swap a b t))

lemma sortList_perm (l : List ℕ) : List.Perm (sortList l) l := by
  induction l with
  | nil => simp [sortList]
  | cons a t ih =>
      exact (insertSorted_perm a (sortList t)).trans (ih.cons a)

lemma monoProd_sortList (x : ℕ → ℚ) (m : List ℕ) :
    monoProd x (sortList m) = monoProd x m := by
  unfold monoProd
  exact List.Perm.prod_eq ((sortList_perm m).map x)

lemma evalTerms_nil (x : ℕ → ℚ) : evalTerms [] x = 0 := rfl

lemma evalTerms_cons (t : List ℕ × ℚ) (ts : List (List ℕ × ℚ)) (x : ℕ → ℚ) :
    evalTerms (t :: ts) x = t.2 * monoProd x t.1 + evalTerms ts x := by
  simp [evalTerms]

lemma evalTerms_addTerm (ts : List (List ℕ × ℚ)) (k : List ℕ) (c : ℚ)
    (x : ℕ → ℚ) :
    evalTerms (addTerm ts k c) x = evalTerms ts x + c * monoProd x k := by
  induction ts with
  | nil => simp [addTerm, evalTerms]
  | cons t rest ih =>
      rcases t with ⟨k0, v⟩
      by_cases h : k0 = k
      · subst h
        rw [show addTerm ((k0, v) :: rest) k0 c = (k0, v + c) :: rest by
          simp [addTerm], evalTerms_cons, evalTerms_cons]
        ring
      · rw [show addTerm ((k0, v) :: rest) k c = (k0, v) :: addTerm rest k c
          by simp [addTerm, h], evalTerms_cons, evalTerms_cons, ih]
        ring

lemma add_below_threshold (pb : PolyBuilder) (m : List ℕ) (c : ℚ)
    (h1 : |c| < eps) : pb.add m c = .ok pb := by
  unfold PolyBuilder.add
  rw [if_pos h1]

lemma add_nil (pb : PolyBuilder) (c : ℚ) : pb.add [] c = .ok pb := by
  unfold PolyBuilder.add
  by_cases h1 : |c| < eps
  · rw [if_pos h1]
  · rw [if_neg h1]
    simp

lemma add_stores (pb : PolyBuilder) (m : List ℕ) (c : ℚ)
    (h1 : ¬ |c| < eps) (hm : m ≠ []) (hd : m.length ≤ pb.max_degree) :
    pb.add m c = .ok { pb with terms := addTerm pb.terms (sortList m) c } := by
  unfold PolyBuilder.add
  rw [if_neg h1, if_neg (by simpa using hm), if_neg (not_lt.mpr hd)]

lemma add_degree_error (pb : PolyBuilder) (m : List ℕ) (c : ℚ)
    (h1 : ¬ |c| < eps) (hm : m ≠ []) (hd : pb.max_degree < m.length) :
    pb.add m c = .error .degreeExceeded := by
  unfold PolyBuilder.add
  rw [if_neg h1, if_neg (by simpa using hm), if_pos hd]

lemma addOk_max_degree (pb : PolyBuilder) (m : List ℕ) (c : ℚ) :
    (addOk pb m c).max_degree = pb.max_degree := by
  unfold addOk
  by_cases h1 : |c| < eps
  · rw [add_below_threshold pb m c h1]
  · by_cases hm : m = []
    · subst hm
      rw [add_nil]
    · by_cases hd : m.length ≤ pb.max_degree
      · rw [add_stores pb m c h1 hm hd]
      · rw [add_degree_error pb m c h1 hm (not_le.mp hd)]

lemma evalTerms_addOk (pb : PolyBuilder) (m : List ℕ) (c : ℚ) (x : ℕ → ℚ)
    (hm : m ≠ []) (hd : m.length ≤ pb.max_degree) :
    evalTerms (addOk pb m c).terms x
      = evalTerms pb.terms x + keep c * monoProd x m := by
  unfold addOk
  by_cases h1 : |c| < eps
  · rw [add_below_threshold pb m c h1]
    unfold keep
    rw [if_pos h1]
    ring
  · rw [add_stores pb m c h1 hm hd]
    unfold keep
    rw [if_neg h1]
    show evalTerms (addTerm pb.terms (sortList m) c) x = _
    rw [evalTerms_addTerm, monoProd_sortList]


lemma foldl_max_degree {α : Type} (f : PolyBuilder → α → PolyBuilder)
    (h : ∀ pb a, (f pb a).max_degree = pb.max_degree) :
    ∀ (l : List α) (pb : PolyBuilder),
      (l.foldl f pb).max_degree = pb.max_degree := by
  intro l
  induction l with
  | nil => intro pb; rfl
  | cons a t ih => intro pb; rw [List.foldl_cons, ih, h]

lemma eval_foldl_addOk {α : Type} (mono : α → List ℕ) (cf : α → ℚ)
    (x : ℕ → ℚ) :
    ∀ (l : List α) (pb : PolyBuilder),
      (∀ a ∈ l, mono a ≠ [] ∧ (mono a).length ≤ pb.max_degree) →
      evalTerms ((l.foldl (fun pb a => addOk pb (mono a) (cf a)) pb).terms) x
        = evalTerms pb.terms x
          + (l.map (fun a => keep (cf a) * monoProd x (mono a))).sum := by
  intro l
  induction l with
  | nil => intro pb _; simp
  | cons a t ih =>
      intro pb h
      have ha := h a (List.mem_cons_self a t)
      have ht : ∀ b ∈ t, mono b ≠ [] ∧
          (mono b).length ≤ (addOk pb (mono a) (cf a)).max_degree := by
        intro b hb
        rw [addOk_max_degree]
        exact h b (List.mem_cons_of_mem a hb)
      rw [List.foldl_cons, List.map_cons, List.sum_cons,
        ih (addOk pb (mono a) (cf a)) ht,
        evalTerms_addOk pb (mono a) (cf a) x ha.1 ha.2]
      ring

/-
One-hot constraint terms: evaluation and the group-count algebra.
-/

lemma addOneHotGroup_eq (lam : ℚ) (pb : PolyBuilder) (g : Group) :
    addOneHotGroup lam pb g
      = (pairsOf g.var_indices).foldl
          (fun pb p => addOk pb [p.1, p.2] (2 * lam))
          (g.var_indices.foldl (fun pb vi => addOk pb [vi] (-lam)) pb) := rfl

lemma addOneHotGroup_max_degree (lam : ℚ) (pb : PolyBuilder) (g : Group) :
    (addOneHotGroup lam pb g).max_degree = pb.max_degree := by
  rw [addOneHotGroup_eq]
  have h1 := foldl_max_degree (fun pb (p : ℕ × ℕ) => addOk pb [p.1, p.2]
      (2 * lam)) (fun pb p => addOk_max_degree pb [p.1, p.2] (2 * lam))
    (pairsOf g.var_indices)
    (List.foldl (fun pb vi => addOk pb [vi] (-lam)) pb g.var_indices)
  have h2 := foldl_max_degree (fun pb (vi : ℕ) => addOk pb [vi] (-lam))
    (fun pb vi => addOk_max_degree pb [vi] (-lam)) g.var_indices pb
  rw [h1, h2]

lemma sum_map_linear (k : ℚ) (x : ℕ → ℚ) (l : List ℕ) :
    (l.map (fun vi => k * monoProd x [vi])).sum = k * (l.map x).sum := by
  induction l with
  | nil => simp
  | cons a t ih =>
      have h1 : monoProd x [a] = x a := by simp [monoProd]
      rw [List.map_cons, List.sum_cons, ih, List.map_cons, List.sum_cons, h1]
      ring

lemma sum_map_quad (k : ℚ) (x : ℕ → ℚ) (ps : List (ℕ × ℕ)) :
    (ps.map (fun p => k * monoProd x [p.1, p.2])).sum
      = k * (ps.map (fun p => x p.1 * x p.2)).sum := by
  induction ps with
  | nil => simp
  | cons a t ih =>
      have h1 : monoProd x [a.1, a.2] = x a.1 * x a.2 := by simp [monoProd]
      rw [List.map_cons, List.sum_cons, ih, List.map_cons, List.sum_cons, h1]
      ring

lemma eval_addOneHotGroup (lam : ℚ) (pb : PolyBuilder) (g : Group)
    (x : ℕ → ℚ) (h2 : 2 ≤ pb.max_degree) :
    evalTerms (addOneHotGroup lam pb g).terms x
      = evalTerms pb.terms x + keep (-lam) * groupOnes x g
        + keep (2 * lam) * pairsSum x g.var_indices := by
  rw [addOneHotGroup_eq]
  have hmd : (g.var_indices.foldl (fun pb vi => addOk pb [vi] (-lam))
      pb).max_degree = pb.max_degree :=
    foldl_max_degree _ (fun pb vi => addOk_max_degree pb [vi] (-lam)) _ _
  have hlin := eval_foldl_addOk (fun vi => [vi]) (fun _ => -lam) x
    g.var_indices pb
    (by intro a _
        refine ⟨by simp, ?_⟩
        simpa using le_trans (by norm_num) h2)
  have hquad := eval_foldl_addOk (fun p : ℕ × ℕ => [p.1, p.2])
    (fun _ => 2 * lam) x (pairsOf g.var_indices)
    (g.var_indices.foldl (fun pb vi => addOk pb [vi] (-lam)) pb)
    (by intro a _
        refine ⟨by simp, ?_⟩
        rw [hmd]
        simpa using h2)
  rw [hquad, hlin, sum_map_linear, sum_map_quad]
  unfold groupOnes pairsSum
  ring

lemma sum_map_pairfix (x : ℕ → ℚ) (a : ℕ) (t : List ℕ) :
    ((t.map (fun b => (a, b))).map (fun p : ℕ × ℕ => x p.1 * x p.2)).sum
      = x a * (t.map x).sum := by
  induction t with
  | nil => simp
  | cons b u ih =>
      simp only [List.map_cons, List.sum_cons, ih]
      ring

lemma addOneHot_max_degree (pb : PolyBuilder) (gs : List Group) (lam : ℚ) :
    (addOneHot pb gs lam).max_degree = pb.max_degree := by
  unfold addOneHot
  exact foldl_max_degree _ (fun pb g => addOneHotGroup_max_degree lam pb g)
    gs pb

lemma eval_addOneHot (pb : PolyBuilder) (gs : List Group) (lam : ℚ)
    (x : ℕ → ℚ) (h2 : 2 ≤ pb.max_degree) :
    evalTerms (addOneHot pb gs lam).terms x
      = evalTerms pb.terms x
        + (gs.map (fun g => keep (-lam) * groupOnes x g
            + keep (2 * lam) * pairsSum x g.var_indices)).sum := by
  unfold addOneHot
  induction gs generalizing pb with
  | nil => simp
  | cons g t ih =>
      rw [List.foldl_cons, List.map_cons, List.sum_cons,
        ih (addOneHotGroup lam pb g)
          (by rw [addOneHotGroup_max_degree]; exact h2),
        eval_addOneHotGroup lam pb g x h2]
      ring

lemma pairsSum_double (x : ℕ → ℚ) (l : List ℕ) :
    2 * pairsSum x l
      = ((l.map x).sum) ^ 2 - (l.map (fun i => x i * x i)).sum := by
  induction l with
  | nil => simp [pairsSum, pairsOf]
  | cons a t ih =>
      unfold pairsSum pairsOf
      rw [List.map_append, List.sum_append, sum_map_pairfix]
      unfold pairsSum at ih
      simp only [List.map_cons, List.sum_cons]
      nlinarith [ih]

lemma binary_sq_sum (x : ℕ → ℚ) (l : List ℕ) (hx : Binary x) :
    (l.map (fun i => x i * x i)).sum = (l.map x).sum := by
  induction l with
  | nil => simp
  | cons a t ih =>
      simp only [List.map_cons, List.sum_cons, ih]
      rcases hx a with h | h <;> rw [h] <;> ring

lemma binary_sum_nat (x : ℕ → ℚ) (l : List ℕ) (hx : Binary x) :
    ∃ n : ℕ, (l.map x).sum = (n : ℚ) := by
  induction l with
  | nil => exact ⟨0, by simp⟩
  | cons a t ih =>
      rcases ih with ⟨n, hn⟩
      rcases hx a with h | h
      · exact ⟨n, by simp [h, hn]⟩
      · exact ⟨n + 1, by push_cast; simp [h, hn]; ring⟩

lemma onehot_contrib_eq (lam : ℚ) (g : Group) (x : ℕ → ℚ)
    (hx : Binary x) (hlam : eps ≤ lam) :
    keep (-lam) * groupOnes x g + keep (2 * lam) * pairsSum x g.var_indices
      = lam * ((groupOnes x g - 1) ^ 2 - 1) := by
  have hpos : 0 < lam := lt_of_lt_of_le eps_pos hlam
  have k1 : keep (-lam) = -lam := by
    unfold keep
    rw [if_neg (by rw [abs_neg, abs_of_pos hpos]; exact not_lt.mpr hlam)]
  have k2 : keep (2 * lam) = 2 * lam := by
    unfold keep
    rw [if_neg (by
      rw [abs_of_pos (by linarith)]
      exact not_lt.mpr (by linarith))]
  rw [k1, k2]
  have hps := pairsSum_double x g.var_indices
  have hsq := binary_sq_sum x g.var_indices hx
  unfold groupOnes
  nlinarith [hps, hsq]

lemma binary_abs_monoProd_le_one (x : ℕ → ℚ) (m : List ℕ) (hx : Binary x) :
    |monoProd x m| ≤ 1 := by
  induction m with
  | nil => simp [monoProd]
  | cons a t ih =>
      unfold monoProd at ih ⊢
      rw [List.map_cons, List.prod_cons, abs_mul]
      have ha : |x a| ≤ 1 := by
        rcases hx a with h | h <;> rw [h] <;> norm_num
      calc |x a| * |(t.map x).prod| ≤ 1 * 1 :=
            mul_le_mul ha ih (abs_nonneg _) (by norm_num)
        _ = 1 := by norm_num

lemma abs_evalTerms_le (ts : List (List ℕ × ℚ)) (x : ℕ → ℚ)
    (hx : Binary x) :
    |evalTerms ts x| ≤ coefAbsSum ts := by
  induction ts with
  | nil => simp [evalTerms, coefAbsSum]
  | cons t rest ih =>
      rw [evalTerms_cons]
      unfold coefAbsSum
      rw [List.map_cons, List.sum_cons]
      have h1 : |t.2 * monoProd x t.1| ≤ |t.2| := by
        rw [abs_mul]
        calc |t.2| * |monoProd x t.1| ≤ |t.2| * 1 :=
              mul_le_mul_of_nonneg_left
                (binary_abs_monoProd_le_one x t.1 hx) (abs_nonneg _)
          _ = |t.2| := by ring
      calc |t.2 * monoProd x t.1 + evalTerms rest x|
          ≤ |t.2 * monoProd x t.1| + |evalTerms rest x| := abs_add _ _
        _ ≤ |t.2| + coefAbsSum rest := add_le_add h1 ih

/-
Pipeline lemmas: degree bookkeeping of the objective build, layout structure
of build_variables, and the argmax fold of compute_baseline.
-/

lemma buildObjective_max_degree (fpow : ℚ → ℚ → ℚ) (pj : PoolsJson)
    (hj : HedgesJson) (scs : List Scenario) (sid : String) (gs : List Group)
    (pb : PolyBuilder)
    (h : buildObjective fpow pj hj scs sid gs = some pb) :
    pb.max_degree
      = (if (gs.find? (fun g => g.name = "tenor")).isSome then 5 else 4) := by
  unfold buildObjective at h
  cases hs : pick_scenario scs sid with
  | none => rw [hs] at h; exact absurd h (by simp)
  | some scen =>
      rw [hs] at h
      simp only [Option.bind_eq_bind', Option.some_bind, Option.some_bind',
        Option.some.injEq] at h
      subst h
      apply Eq.trans (foldl_max_degree _ ?_ _ _)
      · apply Eq.trans (foldl_max_degree _ ?_ _ _)
        · rfl
        · intro pb p
          exact addOk_max_degree _ _ _
      · intro pb pool_id
        apply foldl_max_degree _ ?_ _ _
        intro pb size_key
        apply foldl_max_degree _ ?_ _ _
        intro pb reb_key
        apply Eq.trans (foldl_max_degree _ ?_ _ _) (addOk_max_degree _ _ _)
        intro pb hedge_key
        apply foldl_max_degree _ ?_ _ _
        intro pb tenor_key
        split
        · rw [addOk_max_degree, addOk_max_degree, addOk_max_degree]
        · rw [addOk_max_degree, addOk_max_degree]

lemma buildObjective_max_degree_ge_two (fpow : ℚ → ℚ → ℚ) (pj : PoolsJson)
    (hj : HedgesJson) (scs : List Scenario) (sid : String) (gs : List Group)
    (pb : PolyBuilder)
    (h : buildObjective fpow pj hj scs sid gs = some pb) :
    2 ≤ pb.max_degree := by
  rw [buildObjective_max_degree fpow pj hj scs sid gs pb h]
  split <;> norm_num

lemma build_energy_polynomial_eq (fpow : ℚ → ℚ → ℚ) (pj : PoolsJson)
    (hj : HedgesJson) (scs : List Scenario) (sid : String) (gs : List Group)
    (pb : PolyBuilder)
    (h : buildObjective fpow pj hj scs sid gs = some pb) :
    build_energy_polynomial fpow pj hj scs sid gs
      = some (addOneHot pb gs (lambdaOf pb), lambdaOf pb) := by
  unfold build_energy_polynomial
  rw [h]
  rfl

lemma mkGroups_join (specs : List (String × List String)) :
    ∀ i : ℕ, ((mkGroups i specs).map (fun g => g.var_indices)).flatten
      = List.range' i ((specs.map (fun s => s.2.length)).sum) := by
  induction specs with
  | nil => intro i; simp [mkGroups]
  | cons s rest ih =>
      intro i
      rcases s with ⟨n, ks⟩
      simp only [mkGroups, List.map_cons, List.flatten_cons, List.sum_cons,
        ih (i + ks.length)]
      rw [List.range'_append_1, Nat.add_comm]

lemma mkGroups_keys (specs : List (String × List String)) :
    ∀ i : ℕ, (mkGroups i specs).map (fun g => (g.name, g.keys)) = specs := by
  induction specs with
  | nil => intro i; rfl
  | cons s rest ih =>
      intro i
      rcases s with ⟨n, ks⟩
      simp only [mkGroups, List.map_cons, ih (i + ks.length)]

lemma mkGroups_lens (specs : List (String × List String)) :
    ∀ i : ℕ, ∀ g ∈ mkGroups i specs,
      g.var_indices.length = g.keys.length := by
  induction specs with
  | nil => intro i g hg; simp [mkGroups] at hg
  | cons s rest ih =>
      intro i g hg
      rcases s with ⟨n, ks⟩
      rcases List.mem_cons.mp hg with h | h
      · subst h; simp
      · exact ih (i + ks.length) g h

lemma mkGroups_keycount (specs : List (String × List String)) :
    ∀ i : ℕ, ((mkGroups i specs).map (fun g => g.keys.length)).sum
      = (specs.map (fun s => s.2.length)).sum := by
  induction specs with
  | nil => intro i; rfl
  | cons s rest ih =>
      intro i
      rcases s with ⟨n, ks⟩
      simp only [mkGroups, List.map_cons, List.sum_cons, ih (i + ks.length)]

lemma baseline_fold_snd_mono (mult : Multipliers) (l : List Pool)
    (b : Option String × ℚ) :
    b.2 ≤ (l.foldl (fun b p =>
      if scaledGross mult p > b.2 then (some p.pool_id, scaledGross mult p)
      else b) b).2 := by
  induction l generalizing b with
  | nil => exact le_refl _
  | cons p t ih =>
      rw [List.foldl_cons]
      by_cases h : scaledGross mult p > b.2
      · rw [if_pos h]
        exact le_trans (le_of_lt h) (ih _)
      · rw [if_neg h]
        exact ih b

lemma baseline_fold_ge (mult : Multipliers) (l : List Pool)
    (b : Option String × ℚ) :
    ∀ p ∈ l, scaledGross mult p ≤ (l.foldl (fun b p =>
      if scaledGross mult p > b.2 then (some p.pool_id, scaledGross mult p)
      else b) b).2 := by
  induction l generalizing b with
  | nil => intro p hp; simp at hp
  | cons q t ih =>
      intro p hp
      rw [List.foldl_cons]
      rcases List.mem_cons.mp hp with h | h
      · subst h
        by_cases hq : scaledGross mult p > b.2
        · rw [if_pos hq]
          exact baseline_fold_snd_mono mult t _
        · rw [if_neg hq]
          exact le_trans (not_lt.mp hq) (baseline_fold_snd_mono mult t b)
      · by_cases hq : scaledGross mult q > b.2
        · rw [if_pos hq]
          exact ih _ p h
        · rw [if_neg hq]
          exact ih b p h

lemma baseline_fold_cases (mult : Multipliers) (l : List Pool)
    (b : Option String × ℚ) :
    (l.foldl (fun b p =>
        if scaledGross mult p > b.2 then (some p.pool_id, scaledGross mult p)
        else b) b) = b
      ∨ ∃ p ∈ l, (l.foldl (fun b p =>
          if scaledGross mult p > b.2 then
            (some p.pool_id, scaledGross mult p)
          else b) b) = (some p.pool_id, scaledGross mult p) := by
  induction l generalizing b with
  | nil => exact Or.inl rfl
  | cons q t ih =>
      rw [List.foldl_cons]
      by_cases hq : scaledGross mult q > b.2
      · rw [if_pos hq]
        rcases ih (some q.pool_id, scaledGross mult q) with h | ⟨p, hp, h⟩
        · exact Or.inr ⟨q, List.mem_cons_self q t, h⟩
        · exact Or.inr ⟨p, List.mem_cons_of_mem q hp, h⟩
      · rw [if_neg hq]
        rcases ih b with h | ⟨p, hp, h⟩
        · exact Or.inl h
        · exact Or.inr ⟨p, List.mem_cons_of_mem q hp, h⟩

lemma list_sum_ge_one (l : List ℚ) (h0 : ∀ a ∈ l, 0 ≤ a)
    (h1 : ∃ a ∈ l, 1 ≤ a) : 1 ≤ l.sum := by
  induction l with
  | nil => rcases h1 with ⟨a, ha, _⟩; simp at ha
  | cons a t ih =>
      rw [List.sum_cons]
      rcases h1 with ⟨b, hb, h1b⟩
      rcases List.mem_cons.mp hb with h | h
      · subst h
        have : 0 ≤ t.sum :=
          List.sum_nonneg (fun a ha => h0 a (List.mem_cons_of_mem b ha))
        linarith
      · have ha : 0 ≤ a := h0 a (List.mem_cons_self a t)
        have := ih (fun c hc => h0 c (List.mem_cons_of_mem a hc)) ⟨b, h, h1b⟩
        linarith

lemma foldl_max_le_self : ∀ (xs : List ℚ) (x : ℚ), x ≤ xs.foldl max x := by
  intro xs
  induction xs with
  | nil => intro x; exact le_refl x
  | cons y ys ih =>
      intro x
      rw [List.foldl_cons]
      exact le_trans (le_max_left x y) (ih (max x y))

lemma mem_le_foldl_max (a : ℚ) : ∀ (xs : List ℚ) (x : ℚ), a ∈ xs →
    a ≤ xs.foldl max x := by
  intro xs
  induction xs with
  | nil => intro x ha; simp at ha
  | cons y ys ih =>
      intro x ha
      rw [List.foldl_cons]
      rcases List.mem_cons.mp ha with h | h
      · subst h
        exact le_trans (le_max_right x a) (foldl_max_le_self ys (max x a))
      · exact ih (max x y) h

lemma mem_le_listMaxD (d a : ℚ) (l : List ℚ) (ha : a ∈ l) :
    a ≤ listMaxD d l := by
  cases l with
  | nil => simp at ha
  | cons x xs =>
      rcases List.mem_cons.mp ha with h | h
      · subst h
        exact foldl_max_le_self xs a
      · exact mem_le_foldl_max a xs x h

lemma evalTerms_scaleTerms (ts : List (List ℕ × ℚ)) (s : ℚ) (x : ℕ → ℚ) :
    evalTerms (scaleTerms ts s) x = evalTerms ts x / s := by
  induction ts with
  | nil => simp [scaleTerms, evalTerms]
  | cons t rest ih =>
      unfold scaleTerms at ih ⊢
      rw [List.map_cons, evalTerms_cons, evalTerms_cons, ih]
      ring

lemma binary_choiceIndicator (gs : List Group) (c : Choice) :
    Binary (choiceIndicator gs c) := by
  intro i
  unfold choiceIndicator
  split
  · exact Or.inr rfl
  · exact Or.inl rfl

lemma binary_group_sq_ge_one (x : ℕ → ℚ) (g : Group) (hx : Binary x)
    (h : groupOnes x g ≠ 1) : 1 ≤ (groupOnes x g - 1) ^ 2 := by
  obtain ⟨n, hn⟩ := binary_sum_nat x g.var_indices hx
  unfold groupOnes at h ⊢
  rw [hn] at h ⊢
  have hn1 : n ≠ 1 := by
    intro e
    rw [e] at h
    exact h (by norm_num)
  rcases n with _ | m
  · norm_num
  · have hm : 1 ≤ m := Nat.one_le_iff_ne_zero.mpr (fun e => hn1 (by rw [e]))
    have hq : (1 : ℚ) ≤ (m : ℚ) := by exact_mod_cast hm
    push_cast
    nlinarith

lemma sum_map_lam_sub (lam : ℚ) (f : Group → ℚ) (gs : List Group) :
    (gs.map (fun g => lam * (f g - 1))).sum
      = lam * (gs.map f).sum - lam * gs.length := by
  induction gs with
  | nil => simp
  | cons g t ih =>
      simp only [List.map_cons, List.sum_cons, List.length_cons, ih]
      push_cast
      ring

/-- Under a penalty strength of at least the add threshold, the one-hot
contribution of the whole constraint pass at a binary assignment. -/
lemma eval_energy_decomp (pbObj : PolyBuilder) (gs : List Group) (lam : ℚ)
    (z : ℕ → ℚ) (h2 : 2 ≤ pbObj.max_degree) (hz : Binary z)
    (hlam : eps ≤ lam) :
    evalTerms (addOneHot pbObj gs lam).terms z
      = evalTerms pbObj.terms z
        + lam * (gs.map (fun g => (groupOnes z g - 1) ^ 2)).sum
        - lam * gs.length := by
  rw [eval_addOneHot pbObj gs lam z h2]
  have hcongr : gs.map (fun g => keep (-lam) * groupOnes z g
      + keep (2 * lam) * pairsSum z g.var_indices)
      = gs.map (fun g => lam * (((groupOnes z g - 1) ^ 2) - 1)) := by
    apply List.map_congr_left
    intro g _
    exact onehot_contrib_eq lam g z hz hlam
  rw [hcongr, sum_map_lam_sub lam (fun g => (groupOnes z g - 1) ^ 2) gs]
  ring

/-
Claim theorems.
-/

/-- C10: for every monomial (the empty tuple and over-long tuples included)
and every coefficient of magnitude below 1e-12, PolyBuilder.add returns
without raising and leaves the stored term mapping unchanged: the threshold
is checked before any monomial validation. -/
theorem add_threshold_checked_first (pb : PolyBuilder) (m : List ℕ) (c : ℚ)
    (h : |c| < eps) : pb.add m c = .ok pb :=
  add_below_threshold pb m c h

theorem add_threshold_checked_first_witness :
    |(1e-13 : ℚ)| < eps
      ∧ (⟨4, []⟩ : PolyBuilder).add [1, 1, 1, 1, 1] 1e-13 = .ok ⟨4, []⟩
      ∧ (⟨4, []⟩ : PolyBuilder).add [] 1e-13 = .ok ⟨4, []⟩ :=
  ⟨by with_unfolding_all decide,
   add_threshold_checked_first ⟨4, []⟩ [1, 1, 1, 1, 1] 1e-13
     (by with_unfolding_all decide),
   add_threshold_checked_first ⟨4, []⟩ [] 1e-13
     (by with_unfolding_all decide)⟩

/-- C5 counterexample: at coefficient 1 (and in fact at every coefficient)
the add of an empty monomial returns without any error and leaves the builder
unchanged, refuting the claimed EmptyMonomialError failure. -/
theorem add_empty_no_error :
    (⟨4, []⟩ : PolyBuilder).add [] (1 : ℚ) = .ok ⟨4, []⟩
      ∧ ∀ e : AddError, (⟨4, []⟩ : PolyBuilder).add [] (1 : ℚ) ≠ .error e :=
  ⟨add_nil ⟨4, []⟩ 1,
   fun e h => by rw [add_nil] at h; exact Except.noConfusion h⟩

/-- C5 (amended): for every builder state and every coefficient value, the
add of an empty monomial returns without error and leaves the stored term
mapping unchanged (the constant term is silently omitted, not rejected). -/
theorem add_empty_silent (pb : PolyBuilder) (c : ℚ) :
    pb.add [] c = .ok pb :=
  add_nil pb c

/-- C6 counterexample: a monomial of degree 5 against a configured maximum of
4 is accepted silently when the coefficient is 0, because the magnitude
threshold returns before the degree check, refuting the claim for every
coefficient value. -/
theorem degree_check_skipped_for_small_coef :
    (⟨4, []⟩ : PolyBuilder).add [1, 2, 3, 4, 5] (0 : ℚ) = .ok ⟨4, []⟩
      ∧ ∀ e : AddError,
          (⟨4, []⟩ : PolyBuilder).add [1, 2, 3, 4, 5] (0 : ℚ) ≠ .error e := by
  have h : (⟨4, []⟩ : PolyBuilder).add [1, 2, 3, 4, 5] (0 : ℚ)
      = .ok ⟨4, []⟩ :=
    add_below_threshold _ _ _ (by norm_num [eps])
  exact ⟨h, fun e he => by rw [h] at he; exact Except.noConfusion he⟩

/-- C6 (amended): whenever the coefficient magnitude reaches the 1e-12
threshold, an add whose monomial length exceeds the configured max_degree
fails with the degree-exceeded error. -/
theorem add_degree_exceeded (pb : PolyBuilder) (m : List ℕ) (c : ℚ)
    (h1 : eps ≤ |c|) (h2 : pb.max_degree < m.length) :
    pb.add m c = .error .degreeExceeded := by
  have hm : m ≠ [] := by
    intro e
    subst e
    simp at h2
  exact add_degree_error pb m c (not_lt.mpr h1) hm h2

theorem add_degree_exceeded_witness :
    eps ≤ |(1 : ℚ)|
      ∧ (4 : ℕ) < ([1, 2, 3, 4, 5] : List ℕ).length
      ∧ (⟨4, []⟩ : PolyBuilder).add [1, 2, 3, 4, 5] (1 : ℚ)
          = .error .degreeExceeded :=
  ⟨by norm_num [eps], by norm_num,
   add_degree_exceeded ⟨4, []⟩ [1, 2, 3, 4, 5] 1 (by norm_num [eps])
     (by norm_num)⟩

/-- C8: variable layout construction fails with the configuration error
exactly on position catalogs with fewer than 3 entries, and succeeds on every
catalog with 3 or more. -/
theorem build_variables_min_pools (pj : PoolsJson) (hj : HedgesJson) :
    (pj.pools.length < 3 → build_variables pj hj = .error .tooFewPools)
      ∧ (3 ≤ pj.pools.length → ∃ gs, build_variables pj hj = .ok gs) := by
  constructor
  · intro h
    unfold build_variables
    rw [if_pos h]
  · intro h
    refine ⟨mkGroups 1 (specsOf pj hj), ?_⟩
    unfold build_variables
    rw [if_neg (not_lt.mpr h)]

theorem build_variables_min_pools_witness :
    poolsSmall.pools.length < 3
      ∧ build_variables poolsSmall hedgesB = .error .tooFewPools
      ∧ 3 ≤ poolsB.pools.length
      ∧ ∃ gs, build_variables poolsB hedgesB = .ok gs :=
  ⟨by decide, (build_variables_min_pools poolsSmall hedgesB).1 (by decide),
   by decide, (build_variables_min_pools poolsB hedgesB).2 (by decide)⟩

/-- C7: for every catalog the layout accepts, the per-axis index blocks are
contiguous, in declaration order, and partition [1, num_variables] with no
gaps or overlaps; the variable total used by run_optimization equals the sum
of the per-axis key counts. -/
theorem layout_partition (pj : PoolsJson) (hj : HedgesJson) (gs : List Group)
    (h : build_variables pj hj = .ok gs) :
    ((gs.map (fun g => g.var_indices)).flatten
        = List.range' 1 (numVariables gs))
      ∧ (∀ g ∈ gs, g.var_indices.length = g.keys.length)
      ∧ numVariables gs = ((specsOf pj hj).map (fun s => s.2.length)).sum := by
  unfold build_variables at h
  by_cases hp : pj.pools.length < 3
  · rw [if_pos hp] at h
    exact absurd h (by simp)
  · rw [if_neg hp] at h
    injection h with h
    subst h
    have hnum : numVariables (mkGroups 1 (specsOf pj hj))
        = ((specsOf pj hj).map (fun s => s.2.length)).sum := by
      unfold numVariables
      exact mkGroups_keycount (specsOf pj hj) 1
    refine ⟨?_, mkGroups_lens (specsOf pj hj) 1, hnum⟩
    rw [mkGroups_join (specsOf pj hj) 1, hnum]

theorem layout_partition_witness :
    build_variables poolsB hedgesB = .ok groupsB
      ∧ (groupsB.map (fun g => g.var_indices)).flatten
          = List.range' 1 (numVariables groupsB) :=
  ⟨by decide, (layout_partition poolsB hedgesB groupsB (by decide)).1⟩

/-- C4: dividing every stored coefficient by one common positive factor
preserves the energy ordering of any two assignments; the rescale step of
run_optimization therefore never changes which configuration is optimal, and
after it no coefficient magnitude exceeds the target. -/
theorem rescale_preserves_order :
    (∀ (s : ℚ) (ts : List (List ℕ × ℚ)) (x y : ℕ → ℚ), 0 < s →
        (evalTerms (scaleTerms ts s) x ≤ evalTerms (scaleTerms ts s) y
          ↔ evalTerms ts x ≤ evalTerms ts y))
      ∧ (∀ (pb : PolyBuilder) (x y : ℕ → ℚ),
          evalTerms (rescaleStep pb).1.terms x
              ≤ evalTerms (rescaleStep pb).1.terms y
            ↔ evalTerms pb.terms x ≤ evalTerms pb.terms y)
      ∧ (∀ pb : PolyBuilder, ∀ t ∈ (rescaleStep pb).1.terms,
          |t.2| ≤ TARGET_MAX_COEF_ABS) := by
  have hscale : ∀ (s : ℚ) (ts : List (List ℕ × ℚ)) (x y : ℕ → ℚ), 0 < s →
      (evalTerms (scaleTerms ts s) x ≤ evalTerms (scaleTerms ts s) y
        ↔ evalTerms ts x ≤ evalTerms ts y) := by
    intro s ts x y hs
    rw [evalTerms_scaleTerms, evalTerms_scaleTerms]
    exact div_le_div_iff_of_pos_right hs
  refine ⟨hscale, ?_, ?_⟩
  · intro pb x y
    unfold rescaleStep
    by_cases h : TARGET_MAX_COEF_ABS
        < listMaxD 1 (pb.terms.map (fun t => |t.2|))
    · rw [if_pos h]
      exact hscale _ pb.terms x y
        (div_pos (lt_trans (by norm_num [TARGET_MAX_COEF_ABS]) h)
          (by norm_num [TARGET_MAX_COEF_ABS]))
    · rw [if_neg h]
  · intro pb t ht
    unfold rescaleStep at ht
    by_cases h : TARGET_MAX_COEF_ABS
        < listMaxD 1 (pb.terms.map (fun t => |t.2|))
    · rw [if_pos h] at ht
      simp only [scaleTerms, List.mem_map] at ht
      obtain ⟨u, hu, rfl⟩ := ht
      have hmem : |u.2| ∈ pb.terms.map (fun t => |t.2|) := by
        exact List.mem_map_of_mem _ hu
      have hm : |u.2| ≤ listMaxD 1 (pb.terms.map (fun t => |t.2|)) :=
        mem_le_listMaxD 1 |u.2| _ hmem
      have hMpos : (0 : ℚ) < listMaxD 1 (pb.terms.map (fun t => |t.2|)) :=
        lt_trans (by norm_num [TARGET_MAX_COEF_ABS]) h
      have hdiv : (0 : ℚ)
          < listMaxD 1 (pb.terms.map (fun t => |t.2|))
              / TARGET_MAX_COEF_ABS :=
        div_pos hMpos (by norm_num [TARGET_MAX_COEF_ABS])
      have habs : |u.2 / (listMaxD 1 (pb.terms.map (fun t => |t.2|))
            / TARGET_MAX_COEF_ABS)|
          = |u.2| / (listMaxD 1 (pb.terms.map (fun t => |t.2|))
            / TARGET_MAX_COEF_ABS) := by
        rw [abs_div, abs_of_pos hdiv]
      have hne : listMaxD 1 (pb.terms.map (fun t => |t.2|)) ≠ 0 :=
        ne_of_gt hMpos
      have hfinal : listMaxD 1 (pb.terms.map (fun t => |t.2|))
          / (listMaxD 1 (pb.terms.map (fun t => |t.2|))
            / TARGET_MAX_COEF_ABS) = TARGET_MAX_COEF_ABS := by
        field_simp
      rw [habs]
      calc |u.2| / (listMaxD 1 (pb.terms.map (fun t => |t.2|))
            / TARGET_MAX_COEF_ABS)
          ≤ listMaxD 1 (pb.terms.map (fun t => |t.2|))
            / (listMaxD 1 (pb.terms.map (fun t => |t.2|))
              / TARGET_MAX_COEF_ABS) :=
            (div_le_div_iff_of_pos_right hdiv).mpr hm
        _ = TARGET_MAX_COEF_ABS := hfinal
    · rw [if_neg h] at ht
      refine le_trans ?_ (not_lt.mp h)
      have hmem : |t.2| ∈ pb.terms.map (fun t => |t.2|) := by
        exact List.mem_map_of_mem _ ht
      exact mem_le_listMaxD 1 |t.2| _ hmem

theorem rescale_preserves_order_witness :
    (0 : ℚ) < 2
      ∧ (evalTerms (scaleTerms [([1], (2 : ℚ))] 2) (fun _ => 1)
            ≤ evalTerms (scaleTerms [([1], (2 : ℚ))] 2) (fun _ => 0)
          ↔ evalTerms [([1], (2 : ℚ))] (fun _ => 1)
            ≤ evalTerms [([1], (2 : ℚ))] (fun _ => 0))
      ∧ ∀ t ∈ (rescaleStep ⟨4, [([1], 100)]⟩).1.terms,
          |t.2| ≤ TARGET_MAX_COEF_ABS :=
  ⟨by norm_num,
   rescale_preserves_order.1 2 [([1], 2)] (fun _ => 1) (fun _ => 0)
     (by norm_num),
   rescale_preserves_order.2.2 ⟨4, [([1], 100)]⟩⟩

/-- C2 counterexample: on catalog B the derived penalty strength is 1, and
the pool group's one-hot constraint terms alone (k = 3 at least 2) evaluate
to -1, not 0, at the assignment selecting exactly the first pool: the dropped
constant of (sum - 1)^2 shifts the exactly-one value to -lambda. -/
theorem onehot_exact_one_not_zero :
    build_energy_polynomial fpow0 poolsB hedgesB scens1 "S" groupsB
        = some (pbFullB, 1)
      ∧ 2 ≤ (gfind groupsB "pool").var_indices.length
      ∧ Binary e1
      ∧ groupOnes e1 (gfind groupsB "pool") = 1
      ∧ evalTerms (oneHotGroupAlone 1 (gfind groupsB "pool")).terms e1 = -1
      ∧ (-1 : ℚ) ≠ 0 := by
  refine ⟨by with_unfolding_all decide, by with_unfolding_all decide, ?_,
    by with_unfolding_all decide, by with_unfolding_all decide,
    by norm_num⟩
  intro i
  unfold e1
  split
  · exact Or.inr rfl
  · exact Or.inl rfl

/-- C2 (amended): for every group of size at least 2, every binary
assignment, and every penalty strength of at least the add threshold (as the
derived lambda is in any non-degenerate build), the one-hot constraint terms
of the group alone evaluate, after adding back the dropped constant lambda,
to 0 when exactly one variable of the group is 1 and to a strictly positive
value for every 0-count or at-least-2 count. -/
theorem onehot_group_contribution (lam : ℚ) (g : Group) (x : ℕ → ℚ)
    (hlam : eps ≤ lam) (_hk : 2 ≤ g.var_indices.length) (hx : Binary x) :
    (groupOnes x g = 1
        → evalTerms (oneHotGroupAlone lam g).terms x + lam = 0)
      ∧ (groupOnes x g ≠ 1
        → 0 < evalTerms (oneHotGroupAlone lam g).terms x + lam) := by
  have heval : evalTerms (oneHotGroupAlone lam g).terms x
      = keep (-lam) * groupOnes x g
        + keep (2 * lam) * pairsSum x g.var_indices := by
    unfold oneHotGroupAlone
    rw [eval_addOneHotGroup lam ⟨4, []⟩ g x (by norm_num)]
    rw [show evalTerms (⟨4, ([] : List (List ℕ × ℚ))⟩ :
      PolyBuilder).terms x = 0 from rfl]
    ring
  rw [heval, onehot_contrib_eq lam g x hx hlam]
  have hpos : 0 < lam := lt_of_lt_of_le eps_pos hlam
  constructor
  · intro h1
    rw [h1]
    ring
  · intro h1
    have hsq := binary_group_sq_ge_one x g hx h1
    nlinarith

theorem onehot_group_contribution_witness :
    eps ≤ (1 : ℚ)
      ∧ 2 ≤ (gfind groupsB "pool").var_indices.length
      ∧ groupOnes xZero (gfind groupsB "pool") ≠ 1
      ∧ 0 < evalTerms
            (oneHotGroupAlone 1 (gfind groupsB "pool")).terms xZero + 1 :=
  ⟨by with_unfolding_all decide, by with_unfolding_all decide,
   by with_unfolding_all decide,
   (onehot_group_contribution 1 (gfind groupsB "pool") xZero
      (by with_unfolding_all decide) (by with_unfolding_all decide)
      (fun i => Or.inl rfl)).2
    (by with_unfolding_all decide)⟩

/-- C9 counterexample: on a catalog in which every position's scenario-scaled
gross yield sits below the -1e9 sentinel, compute_baseline returns a
baseline whose pool is the Python None, naming no catalog position at all,
so the returned pool does not attain the maximal gross yield although the
catalog is non-empty. -/
theorem baseline_pool_none :
    compute_baseline poolsD scens1 "S" choiceA = some bcD
      ∧ poolsD.pools ≠ []
      ∧ ∀ p ∈ poolsD.pools, bcD.pool ≠ some p.pool_id := by
  refine ⟨by with_unfolding_all decide, by with_unfolding_all decide,
    by with_unfolding_all decide⟩

/-- C9 (amended): whenever at least one position's scenario-scaled gross
yield exceeds the -1e9 sentinel, compute_baseline returns a choice whose
pool attains the maximal scenario-scaled gross yield over the catalog, whose
hedge is "none", and whose size, rebalance and tenor equal the decoded
choice's, regardless of the decoded pool and hedge. -/
theorem baseline_max_gross (pj : PoolsJson) (scs : List Scenario)
    (sid : String) (chosen : Choice) (scen : Scenario) (bc : BaselineChoice)
    (hs : pick_scenario scs sid = some scen)
    (hb : compute_baseline pj scs sid chosen = some bc)
    (hex : ∃ p ∈ pj.pools, (-1e9 : ℚ) < scaledGross scen.multipliers p) :
    (∃ p ∈ pj.pools, bc.pool = some p.pool_id
        ∧ ∀ q ∈ pj.pools,
            scaledGross scen.multipliers q ≤ scaledGross scen.multipliers p)
      ∧ bc.hedge = "none"
      ∧ bc.size = chosen.size
      ∧ bc.rebalance = chosen.rebalance
      ∧ bc.tenor = chosen.tenor := by
  unfold compute_baseline at hb
  rw [hs] at hb
  simp only [Option.bind_eq_bind', Option.some_bind, Option.some_bind',
    Option.some.injEq] at hb
  subst hb
  rcases baseline_fold_cases scen.multipliers pj.pools
      ((none : Option String), (-1e9 : ℚ)) with hcase | hcase
  · exfalso
    obtain ⟨p, hp, hgt⟩ := hex
    have hle := baseline_fold_ge scen.multipliers pj.pools
      ((none : Option String), (-1e9 : ℚ)) p hp
    rw [hcase] at hle
    exact absurd (lt_of_lt_of_le hgt hle) (lt_irrefl _)
  · obtain ⟨p, hp, hcase⟩ := hcase
    refine ⟨⟨p, hp, ?_, ?_⟩, rfl, rfl, rfl, rfl⟩
    · rw [hcase]
    · intro q hq
      have hle := baseline_fold_ge scen.multipliers pj.pools
        ((none : Option String), (-1e9 : ℚ)) q hq
      rw [hcase] at hle
      exact hle

theorem baseline_max_gross_witness :
    compute_baseline poolsB scens1 "S" choiceB
        = some ⟨some "P1", "none", "M", "w", none⟩
      ∧ ∃ p ∈ poolsB.pools,
          (⟨some "P1", "none", "M", "w", none⟩ : BaselineChoice).pool
              = some p.pool_id
            ∧ ∀ q ∈ poolsB.pools,
                scaledGross mult1 q ≤ scaledGross mult1 p := by
  refine ⟨by with_unfolding_all decide, ?_⟩
  exact (baseline_max_gross poolsB scens1 "S" choiceB ⟨"S", mult1⟩
    ⟨some "P1", "none", "M", "w", none⟩ (by with_unfolding_all decide)
    (by with_unfolding_all decide) (by with_unfolding_all decide)).1

/-- C1 (code bug): on catalog A, which has two rebalance tiers, the
objective terms of the polynomial evaluated at the one-hot assignment of the
decoded choice give 3/25 (the put hedge's cost 0.06 is accumulated once per
rebalance tier onto the rebalance-free (pool, size, hedge) monomial), while
the independently recomputed breakdown gives total_penalties_apr minus
total_gross_apr = 3/50: the two sides the spec requires to agree differ. -/
theorem breakdown_poly_divergence :
    build_variables poolsA hedgesA = .ok groupsA
      ∧ buildObjective fpow0 poolsA hedgesA scens1 "S" groupsA = some pbObjA
      ∧ compute_breakdown fpow0 poolsA hedgesA scens1 "S" choiceA = some bdA
      ∧ evalTerms pbObjA.terms (choiceIndicator groupsA choiceA) = 3 / 25
      ∧ bdA.total_penalties_apr - bdA.total_gross_apr = 3 / 50
      ∧ ((3 : ℚ) / 25 ≠ 3 / 50) := by
  refine ⟨by with_unfolding_all decide, by with_unfolding_all decide,
    by with_unfolding_all decide, by with_unfolding_all decide,
    by with_unfolding_all decide, by norm_num⟩

/-- C3 counterexample: on catalog C every objective coefficient cancels to a
stored 0, so the derived lambda is 20 * 0 = 0 and no one-hot term survives
the add threshold; the all-zero assignment violates exactly-one in every
group yet its energy (0) is not strictly higher than the energy (0) of a
fully valid one-hot assignment. -/
theorem onehot_domination_fails :
    build_variables poolsC hedgesC = .ok groupsC
      ∧ build_energy_polynomial fpow0 poolsC hedgesC scens1 "S" groupsC
          = some (pbFullC, 0)
      ∧ Binary xZero
      ∧ Binary (choiceIndicator groupsC choiceC)
      ∧ ViolatesFor groupsC xZero
      ∧ ValidFor groupsC (choiceIndicator groupsC choiceC)
      ∧ ¬ (evalTerms pbFullC.terms (choiceIndicator groupsC choiceC)
          < evalTerms pbFullC.terms xZero) := by
  refine ⟨by with_unfolding_all decide, by with_unfolding_all decide,
    fun i => Or.inl rfl, binary_choiceIndicator groupsC choiceC,
    by with_unfolding_all decide, by with_unfolding_all decide,
    by with_unfolding_all decide⟩

/-- C3 (amended): provided the derived penalty strength lambda reaches the
1e-12 add threshold and strictly exceeds twice the sum of absolute objective
coefficients, every binary assignment violating exactly-one-selected in some
axis group has strictly higher full energy than every exactly-one-per-group
assignment; and among exactly-one-per-group assignments, the full-energy
ordering coincides with the ordering of the objective terms alone. -/
theorem onehot_domination (fpow : ℚ → ℚ → ℚ) (pj : PoolsJson)
    (hj : HedgesJson) (scs : List Scenario) (sid : String) (gs : List Group)
    (pbObj pbFull : PolyBuilder) (lam : ℚ) (x y : ℕ → ℚ)
    (hobj : buildObjective fpow pj hj scs sid gs = some pbObj)
    (hfull : build_energy_polynomial fpow pj hj scs sid gs
      = some (pbFull, lam))
    (heps : eps ≤ lam)
    (hdom : 2 * coefAbsSum pbObj.terms < lam)
    (hx : Binary x) (hy : Binary y) :
    (ViolatesFor gs x → ValidFor gs y →
        evalTerms pbFull.terms y < evalTerms pbFull.terms x)
      ∧ (ValidFor gs x → ValidFor gs y →
        (evalTerms pbFull.terms x ≤ evalTerms pbFull.terms y
          ↔ evalTerms pbObj.terms x ≤ evalTerms pbObj.terms y)) := by
  have hrel := build_energy_polynomial_eq fpow pj hj scs sid gs pbObj hobj
  rw [hfull] at hrel
  have hpair := Option.some.inj hrel
  have hpb : pbFull = addOneHot pbObj gs (lambdaOf pbObj) :=
    congrArg Prod.fst hpair
  have hlam : lam = lambdaOf pbObj := congrArg Prod.snd hpair
  rw [← hlam] at hpb
  have h2 : 2 ≤ pbObj.max_degree :=
    buildObjective_max_degree_ge_two fpow pj hj scs sid gs pbObj hobj
  have hkey : ∀ z : ℕ → ℚ, Binary z →
      evalTerms pbFull.terms z
        = evalTerms pbObj.terms z
          + lam * (gs.map (fun g => (groupOnes z g - 1) ^ 2)).sum
          - lam * gs.length := by
    intro z hz
    rw [hpb]
    exact eval_energy_decomp pbObj gs lam z h2 hz heps
  have hpos : 0 < lam := lt_of_lt_of_le eps_pos heps
  have hvalidS : ∀ z : ℕ → ℚ, ValidFor gs z →
      (gs.map (fun g => (groupOnes z g - 1) ^ 2)).sum = 0 := by
    intro z hvz
    apply List.sum_eq_zero
    intro a ha
    obtain ⟨g, hg, rfl⟩ := List.mem_map.mp ha
    rw [hvz g hg]
    ring
  constructor
  · intro hvx hvy
    have hSx : 1 ≤ (gs.map (fun g => (groupOnes x g - 1) ^ 2)).sum := by
      apply list_sum_ge_one
      · intro a ha
        obtain ⟨g, hg, rfl⟩ := List.mem_map.mp ha
        exact sq_nonneg _
      · obtain ⟨g, hg, hne⟩ := hvx
        exact ⟨(groupOnes x g - 1) ^ 2,
          List.mem_map.mpr ⟨g, hg, rfl⟩,
          binary_group_sq_ge_one x g hx hne⟩
    have hbx := abs_evalTerms_le pbObj.terms x hx
    have hby := abs_evalTerms_le pbObj.terms y hy
    rw [abs_le] at hbx hby
    rw [hkey x hx, hkey y hy, hvalidS y hvy]
    nlinarith [hSx, hbx.1, hbx.2, hby.1, hby.2]
  · intro hvx hvy
    rw [hkey x hx, hkey y hy, hvalidS x hvx, hvalidS y hvy]
    constructor
    · intro h
      linarith
    · intro h
      linarith

theorem onehot_domination_witness :
    eps ≤ (1 : ℚ)
      ∧ 2 * coefAbsSum pbObjB.terms < 1
      ∧ evalTerms pbFullB.terms (choiceIndicator groupsB choiceB)
          < evalTerms pbFullB.terms xZero := by
  refine ⟨by with_unfolding_all decide, by with_unfolding_all decide, ?_⟩
  exact (onehot_domination fpow0 poolsB hedgesB scens1 "S" groupsB
    pbObjB pbFullB 1 xZero (choiceIndicator groupsB choiceB)
    (by with_unfolding_all decide) (by with_unfolding_all decide)
    (by with_unfolding_all decide) (by with_unfolding_all decide)
    (fun i => Or.inl rfl) (binary_choiceIndicator groupsB choiceB)).1
    (by with_unfolding_all decide) (by with_unfolding_all decide)

end Dirac3
